import Mathlib

/-! QwtSplinePolynomial

A verification development for `qwt/src/qwt_spline_polynomial.h`: the cubic
polynomial without constant term, `y = c3 * x³ + c2 * x² + c1 * x`, its three
evaluators and its factories from boundary slopes and boundary curvatures.

The C++ code computes on `double`.  The embedding is written once, over an
arbitrary carrier `α` that supplies `+`, `-`, `*`, `/` and the literals the
source uses, and is then read in two ways:

* over `ℝ` (or `ℚ`), which is the reading "arithmetic as exact real arithmetic";
* over `Dbl`, exact rational arithmetic extended with one non-finite value,
  which records where a division by zero makes a result `inf` or `NaN`.
-/

/-! ## Data model -/

/-- The point type `QPointF`: a pair of `double` coordinates, read through
`x()` and `y()`. -/
structure QPointF (α : Type) where
  x : α
  y : α
deriving DecidableEq, Repr

/-- The class `QwtSplinePolynomial`: the three public members `c3`, `c2`, `c1`,
in the order of the constructor `QwtSplinePolynomial( a, b, c )`, which stores
`c3(a), c2(b), c1(c)`. -/
structure QwtSplinePolynomial (α : Type) where
  c3 : α
  c2 : α
  c1 : α
deriving DecidableEq, Repr

/-- A `double` with finite arithmetic read as exact: either a finite rational
value, or a non-finite one (`+inf`, `-inf` or `NaN`, not told apart).  Rounding
and the overflow of an operation on finite values are not modelled: such an
operation gives the exact rational result. -/
inductive Dbl where
  | fin (v : ℚ)
  | nonfinite
deriving DecidableEq, Repr

namespace Dbl

/-- Sum of two doubles: a non-finite operand gives a non-finite sum. -/
def add : Dbl → Dbl → Dbl
  | fin a, fin b => fin (a + b)
  | _, _ => nonfinite

/-- Difference of two doubles: a non-finite operand gives a non-finite
difference. -/
def sub : Dbl → Dbl → Dbl
  | fin a, fin b => fin (a - b)
  | _, _ => nonfinite

/-- Product of two doubles: a non-finite operand gives a non-finite product
(`inf * 0` is `NaN`). -/
def mul : Dbl → Dbl → Dbl
  | fin a, fin b => fin (a * b)
  | _, _ => nonfinite

/-- Quotient of two doubles.  A finite value over zero is `inf` or `NaN`; a
non-finite dividend over a finite divisor stays non-finite.  A non-finite
divisor is given the non-finite result as well: IEEE gives `0` for a finite
value over an infinity, but no divisor of this file's source (`x`, `3.0 * x`,
`6.0 * x`) is non-finite when the arguments are finite. -/
def div : Dbl → Dbl → Dbl
  | fin a, fin b => if b = 0 then nonfinite else fin (a / b)
  | _, _ => nonfinite

instance : Add Dbl := ⟨add⟩
instance : Sub Dbl := ⟨sub⟩
instance : Mul Dbl := ⟨mul⟩
instance : Div Dbl := ⟨div⟩
instance (n : ℕ) : OfNat Dbl n := ⟨fin (OfNat.ofNat n)⟩
instance : OfScientific Dbl := ⟨fun m s e => fin (OfScientific.ofScientific m s e)⟩

/-- The test `std::isfinite`. -/
def isFinite : Dbl → Bool
  | fin _ => true
  | nonfinite => false

end Dbl

/-! ## Operations -/

namespace QwtSplinePolynomial

section Construction

variable {α : Type}

/-- The constructor `QwtSplinePolynomial( double a, double b, double c )`, with
the initialisers `c3(a), c2(b), c1(c)`. -/
def construct (a b c : α) : QwtSplinePolynomial α :=
  QwtSplinePolynomial.mk a b c

/-- The constructor called without arguments: the declaration gives each of
`c3`, `c2`, `c1` the default `0.0`. -/
def constructDefault [OfScientific α] : QwtSplinePolynomial α :=
  construct 0.0 0.0 0.0

end Construction

section Evaluators

variable {α : Type} [Add α] [Mul α] [OfScientific α]

/-- The method `valueAt`: `( ( ( c3 * x ) + c2 ) * x + c1 ) * x`. -/
def valueAt (p : QwtSplinePolynomial α) (x : α) : α :=
  ( ( ( p.c3 * x ) + p.c2 ) * x + p.c1 ) * x

/-- The method `slopeAt`: `( 3.0 * c3 * x + 2.0 * c2 ) * x + c1`. -/
def slopeAt (p : QwtSplinePolynomial α) (x : α) : α :=
  ( 3.0 * p.c3 * x + 2.0 * p.c2 ) * x + p.c1

/-- The method `curvatureAt`: `6.0 * c3 * x + 2.0 * c2`. -/
def curvatureAt (p : QwtSplinePolynomial α) (x : α) : α :=
  6.0 * p.c3 * x + 2.0 * p.c2

end Evaluators

section Factories

variable {α : Type} [Add α] [Sub α] [Mul α] [Div α] [OfNat α 2] [OfScientific α]

/-- The factory `fromSlopes( double x, double y, double m1, double m2 )`. -/
def fromSlopes (x y m1 m2 : α) : QwtSplinePolynomial α :=
  let c2 := ( 3.0 * y / x - 2 * m1 - m2 ) / x
  let c3 := ( ( m2 - m1 ) / x - 2.0 * c2 ) / ( 3.0 * x )
  QwtSplinePolynomial.mk c3 c2 m1

/-- The factory `fromSlopes( const QPointF &p1, double m1, const QPointF &p2, double m2 )`,
the overload on two end points (C++ overloads share one name). -/
def fromSlopesPoints (p1 : QPointF α) (m1 : α) (p2 : QPointF α) (m2 : α) :
    QwtSplinePolynomial α :=
  fromSlopes (p2.x - p1.x) (p2.y - p1.y) m1 m2

/-- The factory `fromCurvatures( double x, double y, double cv1, double cv2 )`. -/
def fromCurvatures (x y cv1 cv2 : α) : QwtSplinePolynomial α :=
  let c3 := ( cv2 - cv1 ) / ( 6.0 * x )
  let c2 := 0.5 * cv1
  let c1 := y / x - ( c3 * x + c2 ) * x
  QwtSplinePolynomial.mk c3 c2 c1

/-- The factory `fromCurvatures( const QPointF &p1, double cv1, const QPointF &p2, double cv2 )`,
the overload on two end points. -/
def fromCurvaturesPoints (p1 : QPointF α) (cv1 : α) (p2 : QPointF α) (cv2 : α) :
    QwtSplinePolynomial α :=
  fromCurvatures (p2.x - p1.x) (p2.y - p1.y) cv1 cv2

end Factories

/-- A polynomial with rational coefficients, seen as one with finite `double`
coefficients. -/
def toDbl (p : QwtSplinePolynomial ℚ) : QwtSplinePolynomial Dbl :=
  QwtSplinePolynomial.mk (Dbl.fin p.c3) (Dbl.fin p.c2) (Dbl.fin p.c1)

/-! ## Reading the literals -/

theorem Dbl.ofNat_eq_fin (n : ℕ) : (OfNat.ofNat n : Dbl) = Dbl.fin (OfNat.ofNat n) := rfl

theorem Dbl.fin_add (a b : ℚ) : Dbl.fin a + Dbl.fin b = Dbl.fin (a + b) := rfl

theorem Dbl.fin_sub (a b : ℚ) : Dbl.fin a - Dbl.fin b = Dbl.fin (a - b) := rfl

theorem Dbl.fin_mul (a b : ℚ) : Dbl.fin a * Dbl.fin b = Dbl.fin (a * b) := rfl

theorem Dbl.fin_div (a b : ℚ) (hb : b ≠ 0) : Dbl.fin a / Dbl.fin b = Dbl.fin (a / b) := by
  show Dbl.div (Dbl.fin a) (Dbl.fin b) = Dbl.fin (a / b)
  simp [Dbl.div, hb]

theorem Dbl.ofScientific_eq_fin (m : ℕ) (s : Bool) (e : ℕ) :
    (OfScientific.ofScientific m s e : Dbl) = Dbl.fin (OfScientific.ofScientific m s e) := rfl

/-! ## The slope factory meets its boundary conditions -/

/-- C1: for every `dx ≠ 0` and every `dy`, `m1`, `m2`, read in exact real
arithmetic, the polynomial `fromSlopes(dx, dy, m1, m2)` takes the value `dy`
at `dx`. -/
theorem fromSlopes_valueAt_dx (dx dy m1 m2 : ℝ) (hdx : dx ≠ 0) :
    valueAt (fromSlopes dx dy m1 m2) dx = dy := by
  simp only [fromSlopes, valueAt]
  norm_num
  field_simp
  ring

/-- C1, at `dx = 2`, `dy = 4`, `m1 = 1`, `m2 = 3`: `valueAt(2) = 4`. -/
theorem fromSlopes_valueAt_dx_witness :
    (2 : ℝ) ≠ 0 ∧ valueAt (fromSlopes (2 : ℝ) 4 1 3) 2 = 4 :=
  ⟨by norm_num, fromSlopes_valueAt_dx 2 4 1 3 (by norm_num)⟩

/-- C2: for every `dx ≠ 0` and every `dy`, `m1`, `m2`, read in exact real
arithmetic, the polynomial `fromSlopes(dx, dy, m1, m2)` has slope `m1` at `0`
and slope `m2` at `dx`. -/
theorem fromSlopes_slopeAt_ends (dx dy m1 m2 : ℝ) (hdx : dx ≠ 0) :
    slopeAt (fromSlopes dx dy m1 m2) 0 = m1 ∧
      slopeAt (fromSlopes dx dy m1 m2) dx = m2 := by
  constructor
  · simp [fromSlopes, slopeAt]
  · simp only [fromSlopes, slopeAt]
    norm_num
    field_simp
    ring

/-- C2, at `dx = 2`, `dy = 4`, `m1 = 1`, `m2 = 3`: `slopeAt(0) = 1` and
`slopeAt(2) = 3`. -/
theorem fromSlopes_slopeAt_ends_witness :
    (2 : ℝ) ≠ 0 ∧ slopeAt (fromSlopes (2 : ℝ) 4 1 3) 0 = 1 ∧
      slopeAt (fromSlopes (2 : ℝ) 4 1 3) 2 = 3 :=
  ⟨by norm_num, fromSlopes_slopeAt_ends 2 4 1 3 (by norm_num)⟩

/-! ## The curvature factory meets its boundary conditions -/

/-- C3: for every `dx ≠ 0` and every `dy`, `cv1`, `cv2`, read in exact real
arithmetic, the polynomial `fromCurvatures(dx, dy, cv1, cv2)` takes the value
`dy` at `dx`. -/
theorem fromCurvatures_valueAt_dx (dx dy cv1 cv2 : ℝ) (hdx : dx ≠ 0) :
    valueAt (fromCurvatures dx dy cv1 cv2) dx = dy := by
  simp only [fromCurvatures, valueAt]
  norm_num
  field_simp

/-- C3, at `dx = 2`, `dy = 4`, `cv1 = 2`, `cv2 = 4`: `valueAt(2) = 4`. -/
theorem fromCurvatures_valueAt_dx_witness :
    (2 : ℝ) ≠ 0 ∧ valueAt (fromCurvatures (2 : ℝ) 4 2 4) 2 = 4 :=
  ⟨by norm_num, fromCurvatures_valueAt_dx 2 4 2 4 (by norm_num)⟩

/-- C4: for every `dx ≠ 0` and every `dy`, `cv1`, `cv2`, read in exact real
arithmetic, the polynomial `fromCurvatures(dx, dy, cv1, cv2)` has curvature
`cv1` at `0` and curvature `cv2` at `dx`. -/
theorem fromCurvatures_curvatureAt_ends (dx dy cv1 cv2 : ℝ) (hdx : dx ≠ 0) :
    curvatureAt (fromCurvatures dx dy cv1 cv2) 0 = cv1 ∧
      curvatureAt (fromCurvatures dx dy cv1 cv2) dx = cv2 := by
  constructor
  · simp only [fromCurvatures, curvatureAt]
    norm_num
    ring
  · simp only [fromCurvatures, curvatureAt]
    norm_num
    field_simp
    ring

/-- C4, at `dx = 2`, `dy = 4`, `cv1 = 2`, `cv2 = 4`: `curvatureAt(0) = 2` and
`curvatureAt(2) = 4`. -/
theorem fromCurvatures_curvatureAt_ends_witness :
    (2 : ℝ) ≠ 0 ∧ curvatureAt (fromCurvatures (2 : ℝ) 4 2 4) 0 = 2 ∧
      curvatureAt (fromCurvatures (2 : ℝ) 4 2 4) 2 = 4 :=
  ⟨by norm_num, fromCurvatures_curvatureAt_ends 2 4 2 4 (by norm_num)⟩

/-! ## The evaluators are consistent -/

theorem valueAt_hasDerivAt (p : QwtSplinePolynomial ℝ) (x : ℝ) :
    HasDerivAt (fun t => valueAt p t) (slopeAt p x) x := by
  have hid : HasDerivAt (fun t : ℝ => t) 1 x := hasDerivAt_id x
  have h1 : HasDerivAt (fun t : ℝ => p.c3 * t + p.c2) (p.c3 * 1) x :=
    (hid.const_mul p.c3).add_const p.c2
  have h2 := ((h1.mul hid).add_const p.c1).mul hid
  simp only [valueAt, slopeAt]
  convert h2 using 1
  norm_num
  ring

theorem slopeAt_hasDerivAt (p : QwtSplinePolynomial ℝ) (x : ℝ) :
    HasDerivAt (fun t => slopeAt p t) (curvatureAt p x) x := by
  have hid : HasDerivAt (fun t : ℝ => t) 1 x := hasDerivAt_id x
  have h1 : HasDerivAt (fun t : ℝ => 3.0 * p.c3 * t + 2.0 * p.c2) (3.0 * p.c3 * 1) x :=
    (hid.const_mul (3.0 * p.c3)).add_const (2.0 * p.c2)
  have h2 := (h1.mul hid).add_const p.c1
  simp only [slopeAt, curvatureAt]
  convert h2 using 1
  norm_num
  ring

/-- C5: for every coefficient triple and every real `x`, the function
`t ↦ valueAt(t)` is differentiable at `x`, its derivative there is
`slopeAt(x)`, and `slopeAt(x)` is `(3*c3*x + 2*c2)*x + c1`. -/
theorem slopeAt_is_deriv_valueAt (c3 c2 c1 x : ℝ) :
    DifferentiableAt ℝ (fun t => valueAt (QwtSplinePolynomial.mk c3 c2 c1) t) x ∧
      deriv (fun t => valueAt (QwtSplinePolynomial.mk c3 c2 c1) t) x =
        slopeAt (QwtSplinePolynomial.mk c3 c2 c1) x ∧
      slopeAt (QwtSplinePolynomial.mk c3 c2 c1) x = (3 * c3 * x + 2 * c2) * x + c1 := by
  refine ⟨(valueAt_hasDerivAt _ x).differentiableAt, (valueAt_hasDerivAt _ x).deriv, ?_⟩
  simp only [slopeAt]
  norm_num

/-- C6: for every coefficient triple and every real `x`, the function
`t ↦ slopeAt(t)` is differentiable at `x`, its derivative there is
`curvatureAt(x)`, and `curvatureAt(x)` is `6*c3*x + 2*c2`. -/
theorem curvatureAt_is_deriv_slopeAt (c3 c2 c1 x : ℝ) :
    DifferentiableAt ℝ (fun t => slopeAt (QwtSplinePolynomial.mk c3 c2 c1) t) x ∧
      deriv (fun t => slopeAt (QwtSplinePolynomial.mk c3 c2 c1) t) x =
        curvatureAt (QwtSplinePolynomial.mk c3 c2 c1) x ∧
      curvatureAt (QwtSplinePolynomial.mk c3 c2 c1) x = 6 * c3 * x + 2 * c2 := by
  refine ⟨(slopeAt_hasDerivAt _ x).differentiableAt, (slopeAt_hasDerivAt _ x).deriv, ?_⟩
  simp only [curvatureAt]
  norm_num

/-- C7: for every coefficient triple and every `x`, read in exact real
arithmetic, `valueAt(x)` is the Horner form `((c3*x + c2)*x + c1)*x`, and that
form equals `c3*x^3 + c2*x^2 + c1*x`. -/
theorem valueAt_eq_cubic (c3 c2 c1 x : ℝ) :
    valueAt (QwtSplinePolynomial.mk c3 c2 c1) x = ((c3 * x + c2) * x + c1) * x ∧
      ((c3 * x + c2) * x + c1) * x = c3 * x ^ 3 + c2 * x ^ 2 + c1 * x := by
  refine ⟨rfl, ?_⟩
  ring

/-! ## Finite arguments: the two readings agree -/

theorem valueAt_toDbl (p : QwtSplinePolynomial ℚ) (x : ℚ) :
    valueAt (toDbl p) (Dbl.fin x) = Dbl.fin (valueAt p x) := rfl

theorem fromSlopes_fin (dx dy m1 m2 : ℚ) (hdx : dx ≠ 0) :
    fromSlopes (Dbl.fin dx) (Dbl.fin dy) (Dbl.fin m1) (Dbl.fin m2) =
      toDbl (fromSlopes dx dy m1 m2) := by
  have h3 : (3.0 : ℚ) * dx ≠ 0 := mul_ne_zero (by norm_num) hdx
  simp only [fromSlopes, toDbl, Dbl.ofScientific_eq_fin, Dbl.ofNat_eq_fin, Dbl.fin_mul,
    Dbl.fin_sub, Dbl.fin_div _ _ hdx, Dbl.fin_div _ _ h3]

theorem fromCurvatures_fin (dx dy cv1 cv2 : ℚ) (hdx : dx ≠ 0) :
    fromCurvatures (Dbl.fin dx) (Dbl.fin dy) (Dbl.fin cv1) (Dbl.fin cv2) =
      toDbl (fromCurvatures dx dy cv1 cv2) := by
  have h6 : (6.0 : ℚ) * dx ≠ 0 := mul_ne_zero (by norm_num) hdx
  simp only [fromCurvatures, toDbl, Dbl.ofScientific_eq_fin, Dbl.fin_mul, Dbl.fin_add,
    Dbl.fin_sub, Dbl.fin_div _ _ hdx, Dbl.fin_div _ _ h6]

theorem valueAt_zero_rat (p : QwtSplinePolynomial ℚ) : valueAt p 0 = 0 := by
  simp [valueAt]

/-! ## The zero-origin property -/

/-- C8 fails as stated: `fromSlopes(0, 4, 1, 3)` divides by zero, its
coefficients `c3` and `c2` are not finite, and `valueAt(0)` of the result is
not finite, hence not `0`. -/
theorem valueAt_zero_fails_at_zero_dx :
    fromSlopes (0 : Dbl) 4 1 3 = QwtSplinePolynomial.mk Dbl.nonfinite Dbl.nonfinite 1 ∧
      valueAt (fromSlopes (0 : Dbl) 4 1 3) 0 = Dbl.nonfinite ∧
      valueAt (fromSlopes (0 : Dbl) 4 1 3) 0 ≠ 0 := by
  decide

/-- C8, amended: any instance whose three coefficients are finite, whether
built directly or returned by one of the factories, has `valueAt(0) = 0`.  The
evaluation multiplies by `0` and adds `0` only, so no finite operation in it
can overflow or round. -/
theorem valueAt_zero_of_finite (p : QwtSplinePolynomial Dbl)
    (h3 : Dbl.isFinite p.c3 = true) (h2 : Dbl.isFinite p.c2 = true)
    (h1 : Dbl.isFinite p.c1 = true) :
    valueAt p 0 = 0 := by
  obtain ⟨c3, c2, c1⟩ := p
  cases c3 with
  | nonfinite => simp [Dbl.isFinite] at h3
  | fin a =>
    cases c2 with
    | nonfinite => simp [Dbl.isFinite] at h2
    | fin b =>
      cases c1 with
      | nonfinite => simp [Dbl.isFinite] at h1
      | fin c =>
        show valueAt (toDbl (QwtSplinePolynomial.mk a b c)) (Dbl.fin 0) = Dbl.fin 0
        rw [valueAt_toDbl, valueAt_zero_rat]

/-- C8, amended, at the instance `fromSlopes(2, 4, 1, 3)`, whose coefficients
`(0, 0.5, 1)` are finite. -/
theorem valueAt_zero_of_finite_witness :
    (Dbl.isFinite (fromSlopes (2 : Dbl) 4 1 3).c3 = true ∧
      Dbl.isFinite (fromSlopes (2 : Dbl) 4 1 3).c2 = true ∧
      Dbl.isFinite (fromSlopes (2 : Dbl) 4 1 3).c1 = true) ∧
      valueAt (fromSlopes (2 : Dbl) 4 1 3) 0 = 0 :=
  have e : fromSlopes (2 : Dbl) 4 1 3 = toDbl (fromSlopes 2 4 1 3) :=
    fromSlopes_fin 2 4 1 3 (by norm_num)
  have h3 : Dbl.isFinite (fromSlopes (2 : Dbl) 4 1 3).c3 = true := by
    rw [e]
    rfl
  have h2 : Dbl.isFinite (fromSlopes (2 : Dbl) 4 1 3).c2 = true := by
    rw [e]
    rfl
  ⟨⟨h3, h2, rfl⟩, valueAt_zero_of_finite (fromSlopes (2 : Dbl) 4 1 3) h3 h2 rfl⟩

/-! ## The coefficient formulas of the factories -/

/-- C9: for every `dx`, `dy`, `m1`, `m2`, `fromSlopes(dx, dy, m1, m2)` is the
polynomial with `c2 = (3*dy/dx - 2*m1 - m2)/dx`,
`c3 = ((m2 - m1)/dx - 2*c2)/(3*dx)` and `c1 = m1`, in exact real arithmetic and
in `double` arithmetic with non-finite results; at `dx = 2`, `dy = 4`,
`m1 = 1`, `m2 = 3` it is `(c3, c2, c1) = (0, 0.5, 1)`. -/
theorem fromSlopes_coefficients :
    (∀ dx dy m1 m2 : ℝ, fromSlopes dx dy m1 m2 =
      QwtSplinePolynomial.mk
        (((m2 - m1) / dx - 2 * ((3 * dy / dx - 2 * m1 - m2) / dx)) / (3 * dx))
        ((3 * dy / dx - 2 * m1 - m2) / dx)
        m1) ∧
    (∀ dx dy m1 m2 : Dbl, fromSlopes dx dy m1 m2 =
      QwtSplinePolynomial.mk
        (((m2 - m1) / dx - 2 * ((3 * dy / dx - 2 * m1 - m2) / dx)) / (3 * dx))
        ((3 * dy / dx - 2 * m1 - m2) / dx)
        m1) ∧
    fromSlopes (2 : ℝ) 4 1 3 = QwtSplinePolynomial.mk 0 0.5 1 := by
  refine ⟨fun dx dy m1 m2 => ?_, fun dx dy m1 m2 => ?_, ?_⟩
  · simp only [fromSlopes]
    norm_num
  · simp only [fromSlopes, Dbl.ofScientific_eq_fin, Dbl.ofNat_eq_fin]
    norm_num
  · simp only [fromSlopes]
    norm_num

/-- C10: for every `dx`, `dy`, `cv1`, `cv2`, `fromCurvatures(dx, dy, cv1, cv2)`
is the polynomial with `c3 = (cv2 - cv1)/(6*dx)`, `c2 = 0.5*cv1` and
`c1 = dy/dx - (c3*dx + c2)*dx`, in exact real arithmetic and in `double`
arithmetic with non-finite results; at `dx = 2`, `dy = 4`, `cv1 = 2`,
`cv2 = 4` it is `(c3, c2, c1) = (1/6, 1, -2/3)`. -/
theorem fromCurvatures_coefficients :
    (∀ dx dy cv1 cv2 : ℝ, fromCurvatures dx dy cv1 cv2 =
      QwtSplinePolynomial.mk
        ((cv2 - cv1) / (6 * dx))
        (0.5 * cv1)
        (dy / dx - ((cv2 - cv1) / (6 * dx) * dx + 0.5 * cv1) * dx)) ∧
    (∀ dx dy cv1 cv2 : Dbl, fromCurvatures dx dy cv1 cv2 =
      QwtSplinePolynomial.mk
        ((cv2 - cv1) / (6 * dx))
        (0.5 * cv1)
        (dy / dx - ((cv2 - cv1) / (6 * dx) * dx + 0.5 * cv1) * dx)) ∧
    fromCurvatures (2 : ℝ) 4 2 4 = QwtSplinePolynomial.mk (1 / 6) 1 (-2 / 3) := by
  refine ⟨fun dx dy cv1 cv2 => ?_, fun dx dy cv1 cv2 => ?_, ?_⟩
  · simp only [fromCurvatures]
    norm_num
  · simp only [fromCurvatures, Dbl.ofScientific_eq_fin, Dbl.ofNat_eq_fin]
    norm_num
  · simp only [fromCurvatures]
    norm_num

/-! ## The point overloads delegate to the delta forms -/

/-- C11: for all points `p1`, `p2` and all boundary values, the point overload
of `fromSlopes` returns the coefficients of `fromSlopes(p2.x - p1.x,
p2.y - p1.y, m1, m2)`, and the point overload of `fromCurvatures` those of
`fromCurvatures(p2.x - p1.x, p2.y - p1.y, cv1, cv2)`, in exact real arithmetic
and in `double` arithmetic with non-finite results. -/
theorem points_overloads_eq_delta_forms :
    (∀ (p1 p2 : QPointF ℝ) (m1 m2 : ℝ),
      fromSlopesPoints p1 m1 p2 m2 = fromSlopes (p2.x - p1.x) (p2.y - p1.y) m1 m2) ∧
    (∀ (p1 p2 : QPointF ℝ) (cv1 cv2 : ℝ),
      fromCurvaturesPoints p1 cv1 p2 cv2 =
        fromCurvatures (p2.x - p1.x) (p2.y - p1.y) cv1 cv2) ∧
    (∀ (p1 p2 : QPointF Dbl) (m1 m2 : Dbl),
      fromSlopesPoints p1 m1 p2 m2 = fromSlopes (p2.x - p1.x) (p2.y - p1.y) m1 m2) ∧
    (∀ (p1 p2 : QPointF Dbl) (cv1 cv2 : Dbl),
      fromCurvaturesPoints p1 cv1 p2 cv2 =
        fromCurvatures (p2.x - p1.x) (p2.y - p1.y) cv1 cv2) :=
  ⟨fun _ _ _ _ => rfl, fun _ _ _ _ => rfl, fun _ _ _ _ => rfl, fun _ _ _ _ => rfl⟩

/-! ## Division by a zero `dx` -/

theorem Dbl.nonfinite_add (a : Dbl) : Dbl.nonfinite + a = Dbl.nonfinite := rfl

theorem Dbl.add_nonfinite (a : Dbl) : a + Dbl.nonfinite = Dbl.nonfinite := by
  cases a <;> rfl

theorem Dbl.nonfinite_sub (a : Dbl) : Dbl.nonfinite - a = Dbl.nonfinite := rfl

theorem Dbl.sub_nonfinite (a : Dbl) : a - Dbl.nonfinite = Dbl.nonfinite := by
  cases a <;> rfl

theorem Dbl.nonfinite_mul (a : Dbl) : Dbl.nonfinite * a = Dbl.nonfinite := rfl

theorem Dbl.mul_nonfinite (a : Dbl) : a * Dbl.nonfinite = Dbl.nonfinite := by
  cases a <;> rfl

theorem Dbl.nonfinite_div (a : Dbl) : Dbl.nonfinite / a = Dbl.nonfinite := rfl

theorem Dbl.div_fin_zero (a : Dbl) : a / Dbl.fin 0 = Dbl.nonfinite := by
  cases a with
  | fin v =>
    show Dbl.div (Dbl.fin v) (Dbl.fin 0) = Dbl.nonfinite
    simp [Dbl.div]
  | nonfinite => rfl

theorem fromSlopes_zero_dx (dy m1 m2 : ℚ) :
    fromSlopes (Dbl.fin 0) (Dbl.fin dy) (Dbl.fin m1) (Dbl.fin m2) =
      QwtSplinePolynomial.mk Dbl.nonfinite Dbl.nonfinite (Dbl.fin m1) := by
  simp only [fromSlopes, Dbl.ofScientific_eq_fin, Dbl.ofNat_eq_fin, Dbl.fin_mul, mul_zero,
    Dbl.div_fin_zero, Dbl.nonfinite_sub, Dbl.sub_nonfinite, Dbl.mul_nonfinite]

theorem fromCurvatures_zero_dx (dy cv1 cv2 : ℚ) :
    fromCurvatures (Dbl.fin 0) (Dbl.fin dy) (Dbl.fin cv1) (Dbl.fin cv2) =
      QwtSplinePolynomial.mk Dbl.nonfinite (Dbl.fin (0.5 * cv1)) Dbl.nonfinite := by
  simp only [fromCurvatures, Dbl.ofScientific_eq_fin, Dbl.fin_mul, mul_zero,
    Dbl.div_fin_zero, Dbl.nonfinite_sub, Dbl.fin_sub]

theorem evaluators_nonfinite_of_c3 (b c x : Dbl) :
    valueAt (QwtSplinePolynomial.mk Dbl.nonfinite b c) x = Dbl.nonfinite ∧
      slopeAt (QwtSplinePolynomial.mk Dbl.nonfinite b c) x = Dbl.nonfinite ∧
      curvatureAt (QwtSplinePolynomial.mk Dbl.nonfinite b c) x = Dbl.nonfinite := by
  simp only [valueAt, slopeAt, curvatureAt, Dbl.nonfinite_mul, Dbl.mul_nonfinite,
    Dbl.nonfinite_add, and_self]

/-- C12 fails as stated: with `dx = 0` the coefficient `c1` of
`fromSlopes(0, 4, 1, 3)` is the finite `m1 = 1`, and the coefficient `c2` of
`fromCurvatures(0, 4, 2, 4)` is the finite `0.5 * cv1 = 1`. -/
theorem degenerate_dx_leaves_a_finite_coefficient :
    (fromSlopes (0 : Dbl) 4 1 3).c1 = 1 ∧
      Dbl.isFinite (fromSlopes (0 : Dbl) 4 1 3).c1 = true ∧
      (fromCurvatures (0 : Dbl) 4 2 4).c2 = 1 ∧
      Dbl.isFinite (fromCurvatures (0 : Dbl) 4 2 4).c2 = true := by
  refine ⟨rfl, rfl, ?_, ?_⟩
  · show Dbl.fin (0.5 * 2) = Dbl.fin 1
    norm_num
  · rfl

/-- C12, amended: for `dx = 0` and finite `dy` and boundary values, both
factories return a polynomial; `fromSlopes(0, dy, m1, m2)` has non-finite `c3`
and `c2` and the finite `c1 = m1`; `fromCurvatures(0, dy, cv1, cv2)` has
non-finite `c3` and `c1` and the finite `c2 = 0.5 * cv1`; and `valueAt`,
`slopeAt` and `curvatureAt` of either polynomial are non-finite at every
`x`. -/
theorem degenerate_dx_nonfinite (dy m1 m2 cv1 cv2 : ℚ) (x : Dbl) :
    (Dbl.isFinite (fromSlopes 0 (Dbl.fin dy) (Dbl.fin m1) (Dbl.fin m2)).c3 = false ∧
      Dbl.isFinite (fromSlopes 0 (Dbl.fin dy) (Dbl.fin m1) (Dbl.fin m2)).c2 = false ∧
      (fromSlopes 0 (Dbl.fin dy) (Dbl.fin m1) (Dbl.fin m2)).c1 = Dbl.fin m1) ∧
    (Dbl.isFinite (valueAt (fromSlopes 0 (Dbl.fin dy) (Dbl.fin m1) (Dbl.fin m2)) x) = false ∧
      Dbl.isFinite (slopeAt (fromSlopes 0 (Dbl.fin dy) (Dbl.fin m1) (Dbl.fin m2)) x) = false ∧
      Dbl.isFinite (curvatureAt (fromSlopes 0 (Dbl.fin dy) (Dbl.fin m1) (Dbl.fin m2)) x)
        = false) ∧
    (Dbl.isFinite (fromCurvatures 0 (Dbl.fin dy) (Dbl.fin cv1) (Dbl.fin cv2)).c3 = false ∧
      (fromCurvatures 0 (Dbl.fin dy) (Dbl.fin cv1) (Dbl.fin cv2)).c2 = 0.5 * Dbl.fin cv1 ∧
      Dbl.isFinite (fromCurvatures 0 (Dbl.fin dy) (Dbl.fin cv1) (Dbl.fin cv2)).c2 = true ∧
      Dbl.isFinite (fromCurvatures 0 (Dbl.fin dy) (Dbl.fin cv1) (Dbl.fin cv2)).c1 = false) ∧
    (Dbl.isFinite (valueAt (fromCurvatures 0 (Dbl.fin dy) (Dbl.fin cv1) (Dbl.fin cv2)) x)
        = false ∧
      Dbl.isFinite (slopeAt (fromCurvatures 0 (Dbl.fin dy) (Dbl.fin cv1) (Dbl.fin cv2)) x)
        = false ∧
      Dbl.isFinite (curvatureAt (fromCurvatures 0 (Dbl.fin dy) (Dbl.fin cv1) (Dbl.fin cv2)) x)
        = false) := by
  have hs := fromSlopes_zero_dx dy m1 m2
  have hc := fromCurvatures_zero_dx dy cv1 cv2
  have z : (0 : Dbl) = Dbl.fin 0 := rfl
  rw [z, hs, hc]
  obtain ⟨e1, e2, e3⟩ := evaluators_nonfinite_of_c3 Dbl.nonfinite (Dbl.fin m1) x
  obtain ⟨e4, e5, e6⟩ := evaluators_nonfinite_of_c3 (Dbl.fin (0.5 * cv1)) Dbl.nonfinite x
  rw [e1, e2, e3, e4, e5, e6]
  exact ⟨⟨rfl, rfl, rfl⟩, ⟨rfl, rfl, rfl⟩, ⟨rfl, rfl, rfl, rfl⟩, ⟨rfl, rfl, rfl⟩⟩

/-! ## Direct construction -/

theorem slopeAt_toDbl (p : QwtSplinePolynomial ℚ) (x : ℚ) :
    slopeAt (toDbl p) (Dbl.fin x) = Dbl.fin (slopeAt p x) := rfl

theorem curvatureAt_toDbl (p : QwtSplinePolynomial ℚ) (x : ℚ) :
    curvatureAt (toDbl p) (Dbl.fin x) = Dbl.fin (curvatureAt p x) := rfl

/-- C13: the instance built from `(a, b, c)` has `c3 = a`, `c2 = b`, `c1 = c`;
the default instance has all coefficients `0`, and its `valueAt(x)`,
`slopeAt(x)` and `curvatureAt(x)` are `0` for every `x`, over the reals and
over the finite doubles. -/
theorem construct_verbatim_and_default_zero :
    (∀ a b c : ℝ, (construct a b c).c3 = a ∧ (construct a b c).c2 = b ∧
      (construct a b c).c1 = c) ∧
    (∀ a b c : Dbl, (construct a b c).c3 = a ∧ (construct a b c).c2 = b ∧
      (construct a b c).c1 = c) ∧
    (constructDefault : QwtSplinePolynomial ℝ) = QwtSplinePolynomial.mk 0 0 0 ∧
    (constructDefault : QwtSplinePolynomial Dbl) = QwtSplinePolynomial.mk 0 0 0 ∧
    (∀ x : ℝ, valueAt (constructDefault : QwtSplinePolynomial ℝ) x = 0 ∧
      slopeAt (constructDefault : QwtSplinePolynomial ℝ) x = 0 ∧
      curvatureAt (constructDefault : QwtSplinePolynomial ℝ) x = 0) ∧
    (∀ x : ℚ, valueAt (constructDefault : QwtSplinePolynomial Dbl) (Dbl.fin x) = 0 ∧
      slopeAt (constructDefault : QwtSplinePolynomial Dbl) (Dbl.fin x) = 0 ∧
      curvatureAt (constructDefault : QwtSplinePolynomial Dbl) (Dbl.fin x) = 0) := by
  have hq : (constructDefault : QwtSplinePolynomial ℚ) = QwtSplinePolynomial.mk 0 0 0 := by
    simp only [constructDefault, construct]
    norm_num
  have hd : (constructDefault : QwtSplinePolynomial Dbl) =
      toDbl (constructDefault : QwtSplinePolynomial ℚ) := rfl
  refine ⟨fun _ _ _ => ⟨rfl, rfl, rfl⟩, fun _ _ _ => ⟨rfl, rfl, rfl⟩, ?_, ?_, ?_, ?_⟩
  · simp only [constructDefault, construct]
    norm_num
  · rw [hd, hq]
    rfl
  · intro x
    simp only [constructDefault, construct, valueAt, slopeAt, curvatureAt]
    norm_num
  · intro x
    have z : (0 : Dbl) = Dbl.fin 0 := rfl
    rw [hd, valueAt_toDbl, slopeAt_toDbl, curvatureAt_toDbl, hq, z]
    simp only [valueAt, slopeAt, curvatureAt]
    norm_num

/-! ## The factories return the only solution of their systems -/

theorem eq_of_coefficients {q r : QwtSplinePolynomial ℝ} (h3 : q.c3 = r.c3) (h2 : q.c2 = r.c2)
    (h1 : q.c1 = r.c1) : q = r := by
  cases q
  cases r
  simp only [QwtSplinePolynomial.mk.injEq]
  exact ⟨h3, h2, h1⟩

theorem fromSlopes_of_own_conditions (q : QwtSplinePolynomial ℝ) (dx : ℝ) (hdx : dx ≠ 0) :
    fromSlopes dx (valueAt q dx) (slopeAt q 0) (slopeAt q dx) = q := by
  apply eq_of_coefficients
  · simp only [fromSlopes, valueAt, slopeAt]
    norm_num
    field_simp
    ring
  · simp only [fromSlopes, valueAt, slopeAt]
    norm_num
    field_simp
    ring
  · simp only [fromSlopes, slopeAt]
    norm_num

theorem fromCurvatures_of_own_conditions (q : QwtSplinePolynomial ℝ) (dx : ℝ)
    (hdx : dx ≠ 0) :
    fromCurvatures dx (valueAt q dx) (curvatureAt q 0) (curvatureAt q dx) = q := by
  apply eq_of_coefficients
  · simp only [fromCurvatures, curvatureAt]
    norm_num
    field_simp
    ring
  · simp only [fromCurvatures, curvatureAt]
    norm_num
    ring
  · simp only [fromCurvatures, valueAt, curvatureAt]
    norm_num
    field_simp
    ring

/-- C14: for every `dx ≠ 0` and every `dy`, `m1`, `m2`, read in exact real
arithmetic, a polynomial `q` with `q.valueAt(dx) = dy`, `q.slopeAt(0) = m1` and
`q.slopeAt(dx) = m2` has exactly the coefficients of
`fromSlopes(dx, dy, m1, m2)`. -/
theorem fromSlopes_unique (q : QwtSplinePolynomial ℝ) (dx dy m1 m2 : ℝ) (hdx : dx ≠ 0)
    (hv : valueAt q dx = dy) (h0 : slopeAt q 0 = m1) (h1 : slopeAt q dx = m2) :
    q.c3 = (fromSlopes dx dy m1 m2).c3 ∧ q.c2 = (fromSlopes dx dy m1 m2).c2 ∧
      q.c1 = (fromSlopes dx dy m1 m2).c1 := by
  have h := fromSlopes_of_own_conditions q dx hdx
  rw [hv, h0, h1] at h
  rw [h]
  exact ⟨rfl, rfl, rfl⟩

/-- C14, at `dx = 2`, `dy = 4`, `m1 = 1`, `m2 = 3` and `q = (0, 0.5, 1)`. -/
theorem fromSlopes_unique_witness :
    ((2 : ℝ) ≠ 0 ∧ valueAt (QwtSplinePolynomial.mk (0 : ℝ) 0.5 1) 2 = 4 ∧
      slopeAt (QwtSplinePolynomial.mk (0 : ℝ) 0.5 1) 0 = 1 ∧
      slopeAt (QwtSplinePolynomial.mk (0 : ℝ) 0.5 1) 2 = 3) ∧
    (0 : ℝ) = (fromSlopes (2 : ℝ) 4 1 3).c3 ∧ (0.5 : ℝ) = (fromSlopes (2 : ℝ) 4 1 3).c2 ∧
      (1 : ℝ) = (fromSlopes (2 : ℝ) 4 1 3).c1 :=
  ⟨⟨by norm_num, by norm_num [valueAt], by norm_num [slopeAt], by norm_num [slopeAt]⟩,
    fromSlopes_unique (QwtSplinePolynomial.mk 0 0.5 1) 2 4 1 3 (by norm_num)
      (by norm_num [valueAt]) (by norm_num [slopeAt]) (by norm_num [slopeAt])⟩

/-- C15: for every `dx ≠ 0` and every `dy`, `cv1`, `cv2`, read in exact real
arithmetic, a polynomial `q` with `q.valueAt(dx) = dy`,
`q.curvatureAt(0) = cv1` and `q.curvatureAt(dx) = cv2` has exactly the
coefficients of `fromCurvatures(dx, dy, cv1, cv2)`. -/
theorem fromCurvatures_unique (q : QwtSplinePolynomial ℝ) (dx dy cv1 cv2 : ℝ)
    (hdx : dx ≠ 0) (hv : valueAt q dx = dy) (h0 : curvatureAt q 0 = cv1)
    (h1 : curvatureAt q dx = cv2) :
    q.c3 = (fromCurvatures dx dy cv1 cv2).c3 ∧ q.c2 = (fromCurvatures dx dy cv1 cv2).c2 ∧
      q.c1 = (fromCurvatures dx dy cv1 cv2).c1 := by
  have h := fromCurvatures_of_own_conditions q dx hdx
  rw [hv, h0, h1] at h
  rw [h]
  exact ⟨rfl, rfl, rfl⟩

/-- C15, at `dx = 2`, `dy = 4`, `cv1 = 2`, `cv2 = 4` and
`q = (1/6, 1, -2/3)`. -/
theorem fromCurvatures_unique_witness :
    ((2 : ℝ) ≠ 0 ∧ valueAt (QwtSplinePolynomial.mk (1 / 6 : ℝ) 1 (-2 / 3)) 2 = 4 ∧
      curvatureAt (QwtSplinePolynomial.mk (1 / 6 : ℝ) 1 (-2 / 3)) 0 = 2 ∧
      curvatureAt (QwtSplinePolynomial.mk (1 / 6 : ℝ) 1 (-2 / 3)) 2 = 4) ∧
    (1 / 6 : ℝ) = (fromCurvatures (2 : ℝ) 4 2 4).c3 ∧
      (1 : ℝ) = (fromCurvatures (2 : ℝ) 4 2 4).c2 ∧
      (-2 / 3 : ℝ) = (fromCurvatures (2 : ℝ) 4 2 4).c1 :=
  ⟨⟨by norm_num, by norm_num [valueAt], by norm_num [curvatureAt],
      by norm_num [curvatureAt]⟩,
    fromCurvatures_unique (QwtSplinePolynomial.mk (1 / 6) 1 (-2 / 3)) 2 4 2 4 (by norm_num)
      (by norm_num [valueAt]) (by norm_num [curvatureAt]) (by norm_num [curvatureAt])⟩

/-! ## The two factory families describe the same curves -/

/-- C16: for every `dx ≠ 0`, read in exact real arithmetic: with
`p = fromSlopes(dx, dy, m1, m2)`, the polynomial
`fromCurvatures(dx, dy, p.curvatureAt(0), p.curvatureAt(dx))` has the
coefficients of `p`; and with `q = fromCurvatures(dx, dy, cv1, cv2)`, the
polynomial `fromSlopes(dx, dy, q.slopeAt(0), q.slopeAt(dx))` has the
coefficients of `q`. -/
theorem factories_round_trip (dx dy m1 m2 cv1 cv2 : ℝ) (hdx : dx ≠ 0) :
    fromCurvatures dx dy (curvatureAt (fromSlopes dx dy m1 m2) 0)
        (curvatureAt (fromSlopes dx dy m1 m2) dx) = fromSlopes dx dy m1 m2 ∧
      fromSlopes dx dy (slopeAt (fromCurvatures dx dy cv1 cv2) 0)
        (slopeAt (fromCurvatures dx dy cv1 cv2) dx) = fromCurvatures dx dy cv1 cv2 := by
  constructor
  · apply eq_of_coefficients
    · simp only [fromCurvatures, fromSlopes, curvatureAt]
      norm_num
      field_simp
      ring
    · simp only [fromCurvatures, fromSlopes, curvatureAt]
      norm_num
      ring
    · simp only [fromCurvatures, fromSlopes, curvatureAt]
      norm_num
      field_simp
      ring
  · apply eq_of_coefficients
    · simp only [fromCurvatures, fromSlopes, slopeAt]
      norm_num
      field_simp
      ring
    · simp only [fromCurvatures, fromSlopes, slopeAt]
      norm_num
      field_simp
      ring
    · simp only [fromCurvatures, fromSlopes, slopeAt]
      norm_num

/-- C16, at `dx = 2`, `dy = 4`, slopes `1, 3` and curvatures `2, 4`. -/
theorem factories_round_trip_witness :
    (2 : ℝ) ≠ 0 ∧
      fromCurvatures (2 : ℝ) 4 (curvatureAt (fromSlopes (2 : ℝ) 4 1 3) 0)
        (curvatureAt (fromSlopes (2 : ℝ) 4 1 3) 2) = fromSlopes 2 4 1 3 ∧
      fromSlopes (2 : ℝ) 4 (slopeAt (fromCurvatures (2 : ℝ) 4 2 4) 0)
        (slopeAt (fromCurvatures (2 : ℝ) 4 2 4) 2) = fromCurvatures 2 4 2 4 :=
  ⟨by norm_num, factories_round_trip 2 4 1 3 2 4 (by norm_num)⟩

/-! ## The straight line -/

/-- C17: for every `dx ≠ 0` and every `dy`, `fromCurvatures(dx, dy, 0, 0)` and
`fromSlopes(dx, dy, dy/dx, dy/dx)` are both the chord line, the polynomial with
`c3 = 0`, `c2 = 0` and `c1 = dy/dx`, which takes the value `dy` at `dx`, in
exact real arithmetic and on finite doubles. -/
theorem straight_line (dx dy : ℝ) (ex ey : ℚ) (hdx : dx ≠ 0) (hex : ex ≠ 0) :
    fromCurvatures dx dy 0 0 = QwtSplinePolynomial.mk 0 0 (dy / dx) ∧
      fromSlopes dx dy (dy / dx) (dy / dx) = QwtSplinePolynomial.mk 0 0 (dy / dx) ∧
      valueAt (QwtSplinePolynomial.mk 0 0 (dy / dx)) dx = dy ∧
      fromCurvatures (Dbl.fin ex) (Dbl.fin ey) 0 0 =
        QwtSplinePolynomial.mk 0 0 (Dbl.fin ey / Dbl.fin ex) ∧
      fromSlopes (Dbl.fin ex) (Dbl.fin ey) (Dbl.fin ey / Dbl.fin ex) (Dbl.fin ey / Dbl.fin ex) =
        QwtSplinePolynomial.mk 0 0 (Dbl.fin ey / Dbl.fin ex) := by
  have z : (0 : Dbl) = Dbl.fin 0 := rfl
  have er : (3.0 : ℝ) * dy / dx - 2 * (dy / dx) - dy / dx = 0 := by
    norm_num
    ring
  have eq : (3.0 : ℚ) * ey / ex - 2 * (ey / ex) - ey / ex = 0 := by
    norm_num
    ring
  refine ⟨?_, ?_, ?_, ?_, ?_⟩
  · simp only [fromCurvatures]
    norm_num
  · simp only [fromSlopes, er]
    norm_num
  · simp only [valueAt]
    field_simp
  · rw [z, fromCurvatures_fin ex ey 0 0 hex, Dbl.fin_div _ _ hex]
    simp only [toDbl, fromCurvatures]
    norm_num
  · rw [z, Dbl.fin_div _ _ hex, fromSlopes_fin ex ey _ _ hex]
    simp only [toDbl, fromSlopes, eq]
    norm_num

/-- C17, at `dx = 2`, `dy = 4`: both factories return `(0, 0, 2)`. -/
theorem straight_line_witness :
    ((2 : ℝ) ≠ 0 ∧ (2 : ℚ) ≠ 0) ∧
      fromCurvatures (2 : ℝ) 4 0 0 = QwtSplinePolynomial.mk 0 0 (4 / 2) ∧
      fromSlopes (2 : ℝ) 4 (4 / 2) (4 / 2) = QwtSplinePolynomial.mk 0 0 (4 / 2) ∧
      valueAt (QwtSplinePolynomial.mk 0 0 ((4 : ℝ) / 2)) 2 = 4 ∧
      fromCurvatures (Dbl.fin 2) (Dbl.fin 4) 0 0 =
        QwtSplinePolynomial.mk 0 0 (Dbl.fin 4 / Dbl.fin 2) ∧
      fromSlopes (Dbl.fin 2) (Dbl.fin 4) (Dbl.fin 4 / Dbl.fin 2) (Dbl.fin 4 / Dbl.fin 2) =
        QwtSplinePolynomial.mk 0 0 (Dbl.fin 4 / Dbl.fin 2) :=
  ⟨⟨by norm_num, by norm_num⟩, straight_line 2 4 2 4 (by norm_num) (by norm_num)⟩

end QwtSplinePolynomial
